import Mathlib

/-!
Verification of the SDWIS ETL pipeline (speedtrials-2025).

Shallow embedding of the two ETL scripts of the repository:

* `utils.slug` and the identical inline fallback of `ingest_data.py`
  (column-name normalisation),
* `data_ingest.py` / `SDWISDataIngestion` (pandas based loader:
  `clean_dataframe`, the per-file ingest loop with its
  log-and-continue error policy and `to_sql(if_exists="replace")`),
* `ingest_data.py` (duckdb + sqlite-utils based loader: the
  date-column ISO coercion loop, `insert_all(pk=..., replace=True)`
  upsert semantics, and the two compatibility views).

Text is modelled as `List Char`; machine strings from the Python code
are written as Lean string literals converted with `.toList`.
-/

/-! ## Column normaliser (`utils.py`, `slug`)

Python source:
    SLUG_RE = re.compile(r"[^a-z0-9]+")
    def slug(s): return SLUG_RE.sub("_", s.lower()).strip("_")

The inline fallback in `ingest_data.py` is the same function
(`re.sub(r"[^0-9a-z]+", "_", txt.lower()).strip("_")`).
-/

/-- The character class `[a-z0-9]` of `SLUG_RE` (after lower-casing),
written with the code points of `a`, `z`, `0`, `9`. -/
def lowAlnum (c : Char) : Bool :=
  ((97 ≤ c.toNat && c.toNat ≤ 122) || (48 ≤ c.toNat && c.toNat ≤ 57))

/-- `SLUG_RE.sub("_", l)`: replace every maximal run of characters outside
`[a-z0-9]` by a single underscore.  The flag records whether we are inside
such a run (in which case no further underscore is emitted). -/
def subRuns : Bool → List Char → List Char
  | _, [] => []
  | inRun, c :: cs =>
    if lowAlnum c then c :: subRuns false cs
    else if inRun then subRuns true cs
    else '_' :: subRuns true cs

/-- The separator predicate of `.strip("_")`. -/
def isSep (c : Char) : Bool := c = '_'

/-- Python `str.strip("_")`: drop leading and trailing underscores. -/
def stripSep (l : List Char) : List Char :=
  (((l.dropWhile isSep).reverse).dropWhile isSep).reverse

/-- Python `str.lower()` (the headers are basic-latin). -/
def lowerStr (l : List Char) : List Char := l.map Char.toLower

/-- `utils.slug` (and the identical `ingest_data.py` fallback). -/
def slug (l : List Char) : List Char :=
  stripSep (subRuns false (lowerStr l))

/-! Specification-side normaliser for claim C5, written from the words of
the spec: the maximal alphanumeric words of the lower-cased input, joined
by single separators; collapsing every maximal non-alphanumeric run to one
separator and stripping leading/trailing separators is exactly this. -/

/-- Maximal runs of `[a-z0-9]` characters, in order. -/
def wordsOf : List Char → List (List Char)
  | [] => []
  | c :: cs =>
    if lowAlnum c then
      (c :: cs.takeWhile lowAlnum) :: wordsOf (cs.dropWhile lowAlnum)
    else wordsOf cs
termination_by l => l.length
decreasing_by
  · simp only [List.length_cons]
    exact Nat.lt_succ_of_le (List.dropWhile_sublist lowAlnum).length_le
  · simp

/-- Join words with a single separator between consecutive words. -/
def joinSep : List (List Char) → List Char
  | [] => []
  | [w] => w
  | w :: ws => w ++ '_' :: joinSep ws

/-- Modelled from the spec sentence of §4.1: lower-case the header, collapse
every maximal run of non-alphanumeric characters to a single separator, and
strip leading and trailing separators. -/
def spec_normalize (l : List Char) : List Char :=
  joinSep (wordsOf (lowerStr l))

example : slug ("PWS Name (short)".toList) = "pws_name_short".toList := by decide
example : slug ("__Hello--World__".toList) = "hello_world".toList := by decide
example : slug ("".toList) = "".toList := by decide
example : slug ("!!!".toList) = "".toList := by decide

/-! ### Basic facts about the separator and the character class -/

theorem sep_char {c : Char} (h : isSep c = true) : c = '_' := by
  simpa [isSep] using h

theorem lowAlnum_not_sep {c : Char} (h : lowAlnum c = true) : isSep c = false := by
  cases hs : isSep c with
  | false => rfl
  | true => rw [sep_char hs] at h; exact absurd h (by decide)

theorem toLower_fix {c : Char} (h : lowAlnum c = true) : Char.toLower c = c := by
  simp only [lowAlnum, Bool.or_eq_true, Bool.and_eq_true, decide_eq_true_eq] at h
  simp only [Char.toLower]
  rw [if_neg (by rcases h with ⟨h1, h2⟩ | ⟨h1, h2⟩ <;> omega)]

theorem dropWhile_head_false {α : Type} (p : α → Bool) (l : List α) {c : α} {r : List α}
    (h : l.dropWhile p = c :: r) : p c = false := by
  have h2 := List.head?_dropWhile_not p l
  rw [h] at h2
  simpa using h2

theorem dropWhile_eq_self_of_all {α : Type} {p : α → Bool} {l : List α}
    (h : ∀ c ∈ l, p c = false) : l.dropWhile p = l := by
  cases l with
  | nil => rfl
  | cons c cs => exact List.dropWhile_cons_of_neg (by simp [h c (by simp)])

theorem dropWhile_append_of_ex {α : Type} {p : α → Bool} {a b : List α}
    (h : ∃ c ∈ a, p c = false) : (a ++ b).dropWhile p = a.dropWhile p ++ b := by
  have hne : a.dropWhile p ≠ [] := by
    rw [Ne, List.dropWhile_eq_nil_iff]
    obtain ⟨c, hc, hpc⟩ := h
    intro hall
    rw [hall c hc] at hpc
    cases hpc
  rw [List.dropWhile_append, if_neg (by simpa [List.isEmpty_iff] using hne)]

/-! ### Structure of `subRuns` -/

theorem subRuns_true_no_sep (cs : List Char) :
    (subRuns true cs).dropWhile isSep = subRuns true cs := by
  induction cs with
  | nil => rfl
  | cons c cs ih =>
    cases h : lowAlnum c with
    | true =>
      simp only [subRuns, h, if_true]
      exact List.dropWhile_cons_of_neg (by simp [lowAlnum_not_sep h])
    | false =>
      simpa [subRuns, h] using ih

theorem subRuns_true_eq (cs : List Char) :
    subRuns true cs = subRuns false (cs.dropWhile (fun c => !lowAlnum c)) := by
  induction cs with
  | nil => rfl
  | cons c cs ih =>
    cases h : lowAlnum c with
    | true =>
      rw [List.dropWhile_cons_of_neg (by simp [h])]
      simp [subRuns, h]
    | false =>
      rw [List.dropWhile_cons_of_pos (by simp [h])]
      simpa [subRuns, h] using ih

theorem wordsOf_dropWhile (l : List Char) :
    wordsOf (l.dropWhile (fun c => !lowAlnum c)) = wordsOf l := by
  induction l with
  | nil => rfl
  | cons c cs ih =>
    cases h : lowAlnum c with
    | true => rw [List.dropWhile_cons_of_neg (by simp [h])]
    | false =>
      rw [List.dropWhile_cons_of_pos (by simp [h])]
      rw [ih]
      simp [wordsOf, h]

theorem subRuns_false_append {w : List Char} (hw : ∀ c ∈ w, lowAlnum c = true)
    (d : List Char) : subRuns false (w ++ d) = w ++ subRuns false d := by
  induction w with
  | nil => rfl
  | cons c cs ih =>
    have hc := hw c (by simp)
    simp [subRuns, hc, ih (fun x hx => hw x (by simp [hx]))]

theorem dropSep_subRuns (l : List Char) :
    (subRuns false l).dropWhile isSep
      = subRuns false (l.dropWhile (fun c => !lowAlnum c)) := by
  cases l with
  | nil => rfl
  | cons c cs =>
    cases h : lowAlnum c with
    | true =>
      rw [List.dropWhile_cons_of_neg (by simp [h])]
      simp only [subRuns, h, if_true]
      exact List.dropWhile_cons_of_neg (by simp [lowAlnum_not_sep h])
    | false =>
      rw [List.dropWhile_cons_of_pos (by simp [h])]
      have hsub : subRuns false (c :: cs) = '_' :: subRuns true cs := by
        simp [subRuns, h]
      rw [hsub, List.dropWhile_cons_of_pos (by simp [isSep]), subRuns_true_no_sep,
        subRuns_true_eq]

/-! ### The trailing strip -/

def stripTail (l : List Char) : List Char := ((l.reverse).dropWhile isSep).reverse

theorem stripSep_eq (l : List Char) : stripSep l = stripTail (l.dropWhile isSep) := rfl

theorem stripTail_append_ex {x y : List Char} (h : ∃ c ∈ y, isSep c = false) :
    stripTail (x ++ y) = x ++ stripTail y := by
  unfold stripTail
  rw [List.reverse_append,
    dropWhile_append_of_ex (by obtain ⟨c, hc, hpc⟩ := h; exact ⟨c, by simpa using hc, hpc⟩),
    List.reverse_append, List.reverse_reverse]

theorem stripTail_append_sep (x : List Char) :
    stripTail (x ++ ['_']) = stripTail x := by
  unfold stripTail
  rw [List.reverse_append]
  simp [isSep]

theorem stripTail_all_alnum {w : List Char} (hw : ∀ c ∈ w, lowAlnum c = true) :
    stripTail w = w := by
  unfold stripTail
  rw [dropWhile_eq_self_of_all (fun c hc => lowAlnum_not_sep (hw c (by simpa using hc))),
    List.reverse_reverse]

/-! ### The main characterisation: `slug` produces the joined word list -/

theorem stripTail_subRuns : ∀ (n : Nat) (l : List Char), l.length ≤ n →
    (l = [] ∨ ∃ c cs, l = c :: cs ∧ lowAlnum c = true) →
    stripTail (subRuns false l) = joinSep (wordsOf l) := by
  intro n
  induction n with
  | zero =>
    intro l hl _
    cases l with
    | nil => simp [wordsOf, joinSep, subRuns, stripTail]
    | cons c cs => simp at hl
  | succ n ih =>
    intro l hl hh
    rcases hh with rfl | ⟨c, cs, rfl, hc⟩
    · simp [wordsOf, joinSep, subRuns, stripTail]
    · have hallw : ∀ x ∈ c :: cs.takeWhile lowAlnum, lowAlnum x = true := by
        intro x hx
        rcases List.mem_cons.mp hx with rfl | hx
        · exact hc
        · exact List.mem_takeWhile_imp hx
      have hwords : wordsOf (c :: cs)
          = (c :: cs.takeWhile lowAlnum) :: wordsOf (cs.dropWhile lowAlnum) := by
        simp [wordsOf, hc]
      have hsplit : c :: cs = (c :: cs.takeWhile lowAlnum) ++ cs.dropWhile lowAlnum := by
        simp
      rw [hwords, hsplit, subRuns_false_append hallw]
      cases hdc : cs.dropWhile lowAlnum with
      | nil =>
        rw [show subRuns false [] = [] from rfl, List.append_nil]
        rw [stripTail_all_alnum hallw]
        simp [wordsOf, joinSep]
      | cons e es =>
        have he : lowAlnum e = false := dropWhile_head_false lowAlnum cs hdc
        have hsub : subRuns false (e :: es) = '_' :: subRuns true es := by
          simp [subRuns, he]
        have h1 : subRuns true es = subRuns false (es.dropWhile (fun x => !lowAlnum x)) :=
          subRuns_true_eq es
        have hw2 : wordsOf (e :: es) = wordsOf (es.dropWhile (fun x => !lowAlnum x)) := by
          rw [wordsOf_dropWhile]
          simp [wordsOf, he]
        have hlen : (es.dropWhile (fun x => !lowAlnum x)).length ≤ n := by
          have l1 : (es.dropWhile (fun x => !lowAlnum x)).length ≤ es.length :=
            (List.dropWhile_sublist _).length_le
          have l2 : (e :: es).length ≤ cs.length := by
            rw [← hdc]; exact (List.dropWhile_sublist _).length_le
          simp only [List.length_cons] at l2 hl
          omega
        cases hes2c : es.dropWhile (fun x => !lowAlnum x) with
        | nil =>
          rw [hsub, h1, hes2c]
          show stripTail ((c :: cs.takeWhile lowAlnum) ++ ['_']) = _
          rw [stripTail_append_sep, stripTail_all_alnum hallw, hw2, hes2c]
          simp [wordsOf, joinSep]
        | cons a as =>
          have ha : lowAlnum a = true := by
            have := dropWhile_head_false (fun x => !lowAlnum x) es hes2c
            simpa using this
          have ihe := ih (es.dropWhile (fun x => !lowAlnum x)) hlen
            (Or.inr ⟨a, as, hes2c, ha⟩)
          have hwne : wordsOf (es.dropWhile (fun x => !lowAlnum x))
              = (a :: as.takeWhile lowAlnum) :: wordsOf (as.dropWhile lowAlnum) := by
            rw [hes2c]; simp [wordsOf, ha]
          have hyex : ∃ x ∈ subRuns false (es.dropWhile (fun v => !lowAlnum v)),
              isSep x = false := by
            rw [hes2c]
            exact ⟨a, by simp [subRuns, ha], lowAlnum_not_sep ha⟩
          rw [hsub, h1]
          have hassoc : (c :: cs.takeWhile lowAlnum)
                ++ '_' :: subRuns false (es.dropWhile (fun x => !lowAlnum x))
              = ((c :: cs.takeWhile lowAlnum) ++ ['_'])
                ++ subRuns false (es.dropWhile (fun x => !lowAlnum x)) := by
            simp
          rw [hassoc, stripTail_append_ex hyex, ihe, hw2, hwne]
          simp [joinSep]

theorem slug_eq_spec_normalize (l : List Char) : slug l = spec_normalize l := by
  unfold slug spec_normalize
  rw [stripSep_eq, dropSep_subRuns, ← wordsOf_dropWhile (lowerStr l)]
  have hh : (lowerStr l).dropWhile (fun c => !lowAlnum c) = []
      ∨ ∃ c cs, (lowerStr l).dropWhile (fun c => !lowAlnum c) = c :: cs
          ∧ lowAlnum c = true := by
    cases hc : (lowerStr l).dropWhile (fun c => !lowAlnum c) with
    | nil => exact Or.inl rfl
    | cons a as =>
      refine Or.inr ⟨a, as, rfl, ?_⟩
      have := dropWhile_head_false (fun c => !lowAlnum c) (lowerStr l) hc
      simpa using this
  exact stripTail_subRuns _ _ le_rfl hh

/-! ### Idempotence of the normaliser -/

theorem wordsOf_good : ∀ (n : Nat) (l : List Char), l.length ≤ n →
    ∀ w ∈ wordsOf l, w ≠ [] ∧ ∀ c ∈ w, lowAlnum c = true := by
  intro n
  induction n with
  | zero =>
    intro l hl w hw
    cases l with
    | nil => simp [wordsOf] at hw
    | cons c cs => simp at hl
  | succ n ih =>
    intro l hl w hw
    cases l with
    | nil => simp [wordsOf] at hw
    | cons c cs =>
      simp only [List.length_cons] at hl
      cases hc : lowAlnum c with
      | false =>
        rw [show wordsOf (c :: cs) = wordsOf cs from by simp [wordsOf, hc]] at hw
        exact ih cs (by omega) w hw
      | true =>
        rw [show wordsOf (c :: cs)
            = (c :: cs.takeWhile lowAlnum) :: wordsOf (cs.dropWhile lowAlnum) from by
          simp [wordsOf, hc]] at hw
        rcases List.mem_cons.mp hw with rfl | hw
        · refine ⟨by simp, ?_⟩
          intro x hx
          rcases List.mem_cons.mp hx with rfl | hx
          · exact hc
          · exact List.mem_takeWhile_imp hx
        · have hlen : (cs.dropWhile lowAlnum).length ≤ n := by
            have := (List.dropWhile_sublist (l := cs) lowAlnum).length_le
            omega
          exact ih _ hlen w hw

theorem wordsOf_joinSep (ws : List (List Char))
    (h : ∀ w ∈ ws, w ≠ [] ∧ ∀ c ∈ w, lowAlnum c = true) :
    wordsOf (joinSep ws) = ws := by
  induction ws with
  | nil => simp [wordsOf, joinSep]
  | cons w ws ih =>
    obtain ⟨hne, hall⟩ := h w (by simp)
    obtain ⟨c, t, rfl⟩ : ∃ c t, w = c :: t := by
      cases w with
      | nil => exact absurd rfl hne
      | cons c t => exact ⟨c, t, rfl⟩
    have hc : lowAlnum c = true := hall c (by simp)
    have hta : ∀ x ∈ t, lowAlnum x = true := fun x hx => hall x (by simp [hx])
    cases ws with
    | nil =>
      show wordsOf (c :: t) = [c :: t]
      simp [wordsOf, hc, List.takeWhile_eq_self_iff.mpr hta,
        List.dropWhile_eq_nil_iff.mpr hta]
    | cons w2 ws2 =>
      have ih2 := ih (fun v hv => h v (by simp [hv]))
      show wordsOf ((c :: t) ++ '_' :: joinSep (w2 :: ws2)) = _
      rw [List.cons_append]
      rw [show wordsOf (c :: (t ++ '_' :: joinSep (w2 :: ws2)))
          = (c :: (t ++ '_' :: joinSep (w2 :: ws2)).takeWhile lowAlnum)
            :: wordsOf ((t ++ '_' :: joinSep (w2 :: ws2)).dropWhile lowAlnum) from by
        simp [wordsOf, hc]]
      rw [List.takeWhile_append_of_pos hta, List.dropWhile_append_of_pos hta]
      rw [List.takeWhile_cons_of_neg (by decide), List.dropWhile_cons_of_neg (by decide)]
      rw [show wordsOf ('_' :: joinSep (w2 :: ws2)) = wordsOf (joinSep (w2 :: ws2)) from by
        simp [wordsOf, show lowAlnum '_' = false from by decide]]
      rw [ih2, List.append_nil]

theorem mem_joinSep {ws : List (List Char)} {c : Char} (hc : c ∈ joinSep ws) :
    (∃ w ∈ ws, c ∈ w) ∨ c = '_' := by
  induction ws with
  | nil => cases hc
  | cons w ws ih =>
    cases ws with
    | nil => exact Or.inl ⟨w, by simp, by simpa [joinSep] using hc⟩
    | cons w2 ws2 =>
      rw [show joinSep (w :: w2 :: ws2) = w ++ '_' :: joinSep (w2 :: ws2) from rfl] at hc
      rcases List.mem_append.mp hc with h | h
      · exact Or.inl ⟨w, by simp, h⟩
      · rcases List.mem_cons.mp h with rfl | h
        · exact Or.inr rfl
        · rcases ih h with ⟨w3, hw3, hcw⟩ | rfl
          · exact Or.inl ⟨w3, by simp [hw3], hcw⟩
          · exact Or.inr rfl

theorem lowerStr_fix {z : List Char}
    (hz : ∀ c ∈ z, lowAlnum c = true ∨ c = '_') : lowerStr z = z := by
  unfold lowerStr
  induction z with
  | nil => rfl
  | cons c cs ih =>
    have hc := hz c (by simp)
    simp only [List.map_cons]
    rw [ih (fun x hx => hz x (by simp [hx]))]
    rcases hc with hc | rfl
    · rw [toLower_fix hc]
    · rw [show Char.toLower '_' = '_' from by decide]

/-! ### Claims C4 and C5 -/

/-- C5: for every header string, the column normaliser `slug` returns the
canonical identifier described by the spec: the lower-cased input with every
maximal run of non-alphanumeric characters collapsed to a single separator and
leading and trailing separators stripped, i.e. the maximal alphanumeric words
of the lower-cased input joined by single underscores (`spec_normalize`). -/
theorem slug_meets_normalizer_contract (l : List Char) : slug l = spec_normalize l :=
  slug_eq_spec_normalize l

/-- C4: the column normaliser is idempotent: normalising twice yields the same
result as normalising once. -/
theorem slug_idempotent (l : List Char) : slug (slug l) = slug l := by
  have h1 := slug_eq_spec_normalize l
  have hgood := wordsOf_good (lowerStr l).length (lowerStr l) le_rfl
  have hfix : lowerStr (slug l) = slug l := by
    apply lowerStr_fix
    intro c hc
    rw [h1] at hc
    unfold spec_normalize at hc
    rcases mem_joinSep hc with ⟨w, hw, hcw⟩ | rfl
    · exact Or.inl ((hgood w hw).2 c hcw)
    · exact Or.inr rfl
  have h2 := slug_eq_spec_normalize (slug l)
  rw [h2]
  unfold spec_normalize
  rw [hfix, h1]
  unfold spec_normalize
  rw [wordsOf_joinSep _ hgood]

/-! ## Values, dates and the coercion parsers

CSV cells reaching the cleaning passes are text or missing (`null`); the
coercion passes can additionally produce parsed dates and numbers.  The two
library calls `pandas.to_datetime(_, errors="coerce")` and
`pandas.to_numeric(_, errors="coerce")` are modelled as total functions into
`Option`: a parse either yields a value or `none`; it never raises.  The date
grammar is the ISO `YYYY-MM-DD` layout used by the SDWIS extracts, with full
calendar validation (month range, day range per month, leap years); the
number grammar is an optional sign, an integer part and an optional decimal
fraction. -/

structure CalDate where
  year : Nat
  month : Nat
  day : Nat
deriving DecidableEq

def isLeap (y : Nat) : Bool := ((y % 4 = 0) && !(y % 100 = 0)) || (y % 400 = 0)

def daysInMonth (y m : Nat) : Nat :=
  if m = 2 then (if isLeap y then 29 else 28)
  else if m = 4 || m = 6 || m = 9 || m = 11 then 30
  else 31

def CalDate.valid (d : CalDate) : Bool :=
  (1 ≤ d.month) && (d.month ≤ 12) && (1 ≤ d.day) && (d.day ≤ daysInMonth d.year d.month)

def digitVal (c : Char) : Option Nat :=
  if 48 ≤ c.toNat && c.toNat ≤ 57 then some (c.toNat - 48) else none

def parseNatCore : List Char → Nat → Option Nat
  | [], acc => some acc
  | c :: cs, acc =>
    match digitVal c with
    | some d => parseNatCore cs (acc * 10 + d)
    | none => none

/-- A non-empty all-digit field read as a decimal number. -/
def parseNatDigits : List Char → Option Nat
  | [] => none
  | l => parseNatCore l 0

def splitOnChar (sep : Char) : List Char → List (List Char)
  | [] => [[]]
  | c :: cs =>
    if c = sep then [] :: splitOnChar sep cs
    else
      match splitOnChar sep cs with
      | [] => [[c]]
      | w :: ws => (c :: w) :: ws

/-- Model of `pandas.to_datetime(value, errors="coerce")` on one text value:
either a valid calendar date or `none`; never an error. -/
def parseDate (l : List Char) : Option CalDate :=
  match splitOnChar '-' l with
  | [ys, ms, ds] =>
    match parseNatDigits ys, parseNatDigits ms, parseNatDigits ds with
    | some y, some m, some d =>
      if CalDate.valid ⟨y, m, d⟩ then some ⟨y, m, d⟩ else none
    | _, _, _ => none
  | _ => none

def parseNumCore (l : List Char) : Option Rat :=
  match splitOnChar '.' l with
  | [ip] => (parseNatDigits ip).map (fun n => (n : Rat))
  | [ip, fp] =>
    match parseNatDigits ip, parseNatDigits fp with
    | some n, some f => some ((n : Rat) + (f : Rat) / ((10 : Rat) ^ fp.length))
    | _, _ => none
  | _ => none

/-- Model of `pandas.to_numeric(value, errors="coerce")` on one text value. -/
def parseNum (l : List Char) : Option Rat :=
  match l with
  | '-' :: cs => (parseNumCore cs).map (fun q => -q)
  | '+' :: cs => parseNumCore cs
  | _ => parseNumCore l

inductive Cell where
  | null : Cell
  | str : List Char → Cell
  | num : Rat → Cell
  | date : CalDate → Cell
deriving DecidableEq

/-- Cells as read from a CSV: text or missing. -/
def Cell.raw : Cell → Bool
  | .null => true
  | .str _ => true
  | _ => false

/-- `pd.to_datetime(col, errors="coerce")`, cellwise. -/
def toDateCell : Cell → Cell
  | .str s =>
    match parseDate s with
    | some d => .date d
    | none => .null
  | .date d => .date d
  | _ => .null

/-- `pd.to_numeric(col, errors="coerce")` on an object-dtype column (one that
did not go through the date pass), cellwise: text parses or coerces to NaN;
a non-numeric object, a datetime object included, coerces to NaN. -/
def toNumCell : Cell → Cell
  | .str s =>
    match parseNum s with
    | some q => .num q
    | none => .null
  | .num q => .num q
  | _ => .null

/-- The int64 sentinel pandas stores for NaT when a datetime64 column is
viewed as integers. -/
def iNaT : Int := -(2 ^ 63)

/-- Days from 1970-01-01 of a proleptic-Gregorian calendar date (civil-days
algorithm with floor divisions). -/
def daysFromCivil (y m d : Nat) : Int :=
  let ys : Int := if m ≤ 2 then (y : Int) - 1 else (y : Int)
  let era : Int := Int.fdiv ys 400
  let yoe : Int := ys - era * 400
  let mp : Nat := (m + 9) % 12
  let doy : Int := (((153 * mp + 2) / 5 + d - 1 : Nat) : Int)
  let doe : Int := yoe * 365 + Int.fdiv yoe 4 - Int.fdiv yoe 100 + doy
  era * 146097 + doe - 719468

/-- The epoch-nanosecond value of a datetime64 timestamp at midnight. -/
def epochNs (d : CalDate) : Int :=
  daysFromCivil d.year d.month d.day * 86400 * 1000000000

/-- `pd.to_numeric(col, errors="coerce")` on a datetime64 column (one the
date pass produced): pandas views the column as int64, so every timestamp
becomes its epoch-nanosecond integer and NaT becomes the `iNaT` sentinel —
not null.  Only dates and NaT occur in a date-coerced column; the `str` and
`num` cases are unreachable there. -/
def toNumCellDt : Cell → Cell
  | .date d => .num ((epochNs d : Int) : Rat)
  | .null => .num ((iNaT : Int) : Rat)
  | .str _ => .null
  | .num q => .num q

structure Col where
  name : List Char
  cells : List Cell
deriving DecidableEq

abbrev DataFrame := List Col

/-! ## `data_ingest.py`: `SDWISDataIngestion.clean_dataframe` -/

def upperStr (l : List Char) : List Char := l.map Char.toUpper

def beginsWith : List Char → List Char → Bool
  | [], _ => true
  | _ :: _, [] => false
  | p :: ps, c :: cs => (p = c) && beginsWith ps cs

/-- `pat` occurs as a contiguous subsequence of the second list
(Python `pat in s`). -/
def containsSeq (pat : List Char) : List Char → Bool
  | [] => beginsWith pat []
  | c :: cs => beginsWith pat (c :: cs) || containsSeq pat cs

/-- Python `"DATE" in col.upper()`. -/
def isDateName (name : List Char) : Bool := containsSeq ("DATE".toList) (upperStr name)

/-- Python `"COUNT" in col.upper() or "MEASURE" in col.upper()`. -/
def isNumName (name : List Char) : Bool :=
  containsSeq ("COUNT".toList) (upperStr name) || containsSeq ("MEASURE".toList) (upperStr name)

/-- `clean_dataframe` on one column: the date pass
(`df[col] = pd.to_datetime(df[col], errors="coerce")` for every column whose
upper-cased name contains DATE) followed by the numeric pass
(`pd.to_numeric(..., errors="coerce")` for every column whose upper-cased
name contains COUNT or MEASURE).  Columns are independent, so the two loops
of the source act on each column in sequence; the numeric pass sees the
dtype the date pass left: a column that matched both patterns is datetime64
when `to_numeric` reaches it, and pandas then converts it to int64 epoch
values (`toNumCellDt`) rather than parsing the original text. -/
def cleanCol (c : Col) : Col :=
  if isDateName c.name then
    if isNumName c.name then
      Col.mk c.name ((c.cells.map toDateCell).map toNumCellDt)
    else Col.mk c.name (c.cells.map toDateCell)
  else if isNumName c.name then Col.mk c.name (c.cells.map toNumCell)
  else c

def clean_dataframe (df : DataFrame) : DataFrame := df.map cleanCol

/-! ## `ingest_data.py`: the per-view date loop -/

def endsWithSeq (pat l : List Char) : Bool := beginsWith pat.reverse l.reverse

/-- `DATE_COL_RE = re.compile(r"_date$|_date_|_dt$|_dt_", re.I)` as a predicate
on the (lower-cased) column name. -/
def isDateColName (name : List Char) : Bool :=
  endsWithSeq ("_date".toList) (lowerStr name)
    || containsSeq ("_date_".toList) (lowerStr name)
    || endsWithSeq ("_dt".toList) (lowerStr name)
    || containsSeq ("_dt_".toList) (lowerStr name)

def digitChar (n : Nat) : Char := Char.ofNat (48 + n % 10)

def pad2 (n : Nat) : List Char := [digitChar (n / 10), digitChar n]

def pad4 (n : Nat) : List Char :=
  [digitChar (n / 1000), digitChar (n / 100), digitChar (n / 10), digitChar n]

/-- `strftime("%Y-%m-%d")`. -/
def isoOfDate (d : CalDate) : List Char :=
  pad4 d.year ++ '-' :: (pad2 d.month ++ '-' :: pad2 d.day)

/-- The body of the date-safety loop of `ingest_data.py` (lines 59 to 65):
`pd.to_datetime(df[col], errors="coerce")` then `strftime("%Y-%m-%d")` where
parsed, `None` elsewhere. -/
def coerceDateStr : Cell → Cell
  | .str s =>
    match parseDate s with
    | some d => .str (isoOfDate d)
    | none => .null
  | _ => .null

/-- One iteration of the per-view load loop of `ingest_data.py`: slug every
column name, then rewrite every date-ish column to ISO strings or null. -/
def loadView (df : DataFrame) : DataFrame :=
  (df.map (fun c => Col.mk (slug c.name) c.cells)).map
    (fun c => if isDateColName c.name then Col.mk c.name (c.cells.map coerceDateStr) else c)

/-! ### Claims C1, C8 and C10 -/

theorem parseDate_valid {s : List Char} {d : CalDate} (h : parseDate s = some d) :
    d.valid = true := by
  unfold parseDate at h
  repeat' split at h
  all_goals first
    | (cases h; assumption)
    | exact Option.noConfusion h

theorem toDateCell_safe {v : Cell} (hraw : v.raw = true) :
    toDateCell v = Cell.null ∨ ∃ d : CalDate, d.valid = true ∧ toDateCell v = Cell.date d := by
  cases v with
  | null => exact Or.inl rfl
  | str s =>
    cases hp : parseDate s with
    | none => exact Or.inl (by simp [toDateCell, hp])
    | some d => exact Or.inr ⟨d, parseDate_valid hp, by simp [toDateCell, hp]⟩
  | num q => cases hraw
  | date d => cases hraw

theorem coerceDateStr_safe (v : Cell) :
    coerceDateStr v = Cell.null
      ∨ ∃ d : CalDate, d.valid = true ∧ coerceDateStr v = Cell.str (isoOfDate d) := by
  cases v with
  | str s =>
    cases hp : parseDate s with
    | none => exact Or.inl (by simp [coerceDateStr, hp])
    | some d => exact Or.inr ⟨d, parseDate_valid hp, by simp [coerceDateStr, hp]⟩
  | null => exact Or.inl rfl
  | num q => exact Or.inl rfl
  | date d => exact Or.inl rfl

theorem cleanCol_name (c : Col) : (cleanCol c).name = c.name := by
  unfold cleanCol
  cases hd : isDateName c.name <;> cases hn : isNumName c.name <;> simp [hd, hn]

theorem overlap_cells_eq {c : Col} (hd : isDateName c.name = true)
    (hn : isNumName c.name = true) :
    (cleanCol c).cells = c.cells.map (fun v => toNumCellDt (toDateCell v)) := by
  simp [cleanCol, hd, hn, List.map_map, Function.comp]

theorem overlap_cell_shape {v : Cell} (hraw : v.raw = true) :
    (∃ d : CalDate, d.valid = true
      ∧ toNumCellDt (toDateCell v) = Cell.num ((epochNs d : Int) : Rat))
    ∨ toNumCellDt (toDateCell v) = Cell.num ((iNaT : Int) : Rat) := by
  cases v with
  | null => exact Or.inr rfl
  | str s =>
    cases hp : parseDate s with
    | none => exact Or.inr (by simp [toDateCell, hp, toNumCellDt])
    | some d => exact Or.inl ⟨d, parseDate_valid hp, by simp [toDateCell, hp, toNumCellDt]⟩
  | num q => cases hraw
  | date d => cases hraw

/-- C1 (amended): in both loaders the date-coercion step itself never raises
and produces only valid calendar dates or nulls: unconditionally so in
`ingest_data.py` (first conjunct: every `DATE_COL_RE` column of a loaded view
holds valid ISO date strings or nulls), and in `data_ingest.py` for every
DATE-named column whose name does not also contain COUNT or MEASURE (second
conjunct).  When the name matches both patterns, the numeric pass that runs
after the date pass converts the datetime64 column to int64, so the loaded
column holds epoch-nanosecond integers (the iNaT sentinel where the value did
not parse as a date) rather than dates or nulls (third conjunct). -/
theorem date_coercion_safety :
    (∀ (df : DataFrame), ∀ c ∈ loadView df, isDateColName c.name = true →
      ∀ v ∈ c.cells,
        v = Cell.null ∨ ∃ d : CalDate, d.valid = true ∧ v = Cell.str (isoOfDate d))
    ∧ (∀ (df : DataFrame), (∀ c ∈ df, ∀ v ∈ c.cells, v.raw = true) →
      ∀ c ∈ clean_dataframe df, isDateName c.name = true → isNumName c.name = false →
      ∀ v ∈ c.cells,
        v = Cell.null ∨ ∃ d : CalDate, d.valid = true ∧ v = Cell.date d)
    ∧ (∀ (df : DataFrame), (∀ c ∈ df, ∀ v ∈ c.cells, v.raw = true) →
      ∀ c ∈ clean_dataframe df, isDateName c.name = true → isNumName c.name = true →
      ∀ v ∈ c.cells,
        (∃ d : CalDate, d.valid = true ∧ v = Cell.num ((epochNs d : Int) : Rat))
        ∨ v = Cell.num ((iNaT : Int) : Rat)) := by
  refine ⟨?_, ?_, ?_⟩
  · intro df c hc hname v hv
    unfold loadView at hc
    rcases List.mem_map.mp hc with ⟨c0, hc0, hceq⟩
    by_cases hdn : isDateColName c0.name = true
    · rw [if_pos hdn] at hceq
      rw [← hceq] at hv
      rcases List.mem_map.mp hv with ⟨v0, _, hveq⟩
      rw [← hveq]
      rcases coerceDateStr_safe v0 with h | ⟨d, hd, he⟩
      · exact Or.inl h
      · exact Or.inr ⟨d, hd, he⟩
    · rw [if_neg hdn] at hceq
      rw [← hceq] at hname
      exact absurd hname hdn
  · intro df hraw c hc hname hnum v hv
    unfold clean_dataframe at hc
    rcases List.mem_map.mp hc with ⟨c0, hc0, hceq⟩
    have hname0 : isDateName c0.name = true := by
      rw [← cleanCol_name c0, hceq] at *
      exact hname
    have hnum0 : isNumName c0.name = false := by
      rw [← cleanCol_name c0, hceq] at *
      exact hnum
    have hcells : c.cells = c0.cells.map toDateCell := by
      rw [← hceq]
      simp [cleanCol, hname0, hnum0]
    rw [hcells] at hv
    rcases List.mem_map.mp hv with ⟨v0, hv0, hveq⟩
    rw [← hveq]
    rcases toDateCell_safe (hraw c0 hc0 v0 hv0) with h | ⟨d, hd, he⟩
    · exact Or.inl h
    · exact Or.inr ⟨d, hd, he⟩
  · intro df hraw c hc hname hnum v hv
    unfold clean_dataframe at hc
    rcases List.mem_map.mp hc with ⟨c0, hc0, hceq⟩
    have hname0 : isDateName c0.name = true := by
      rw [← cleanCol_name c0, hceq] at *
      exact hname
    have hnum0 : isNumName c0.name = true := by
      rw [← cleanCol_name c0, hceq] at *
      exact hnum
    have hcells : c.cells = c0.cells.map (fun v => toNumCellDt (toDateCell v)) := by
      rw [← hceq]
      exact overlap_cells_eq hname0 hnum0
    rw [hcells] at hv
    rcases List.mem_map.mp hv with ⟨v0, hv0, hveq⟩
    rw [← hveq]
    exact overlap_cell_shape (hraw c0 hc0 v0 hv0)

/-- C1 counterexample: a one-column frame whose column name contains both
MEASURE and DATE — a date-indicating column the claim covers. -/
def dfOverlap : DataFrame :=
  [Col.mk ("MEASUREMENT_DATE".toList) [Cell.str ("2024-02-29".toList)]]

/-- C1 counterexample: on `dfOverlap` the date pass runs first and the
numeric pass second, so the loaded date-indicating column holds the
epoch-nanosecond integer of 2024-02-29 — a value that is neither a valid
calendar date nor null, refuting the claim as stated at this input. -/
theorem date_coercion_overlap_cex :
    Col.mk ("MEASUREMENT_DATE".toList) [Cell.num ((1709164800000000000 : Int) : Rat)]
        ∈ clean_dataframe dfOverlap
    ∧ isDateName ("MEASUREMENT_DATE".toList) = true
    ∧ ¬(Cell.num ((1709164800000000000 : Int) : Rat) = Cell.null
        ∨ ∃ d : CalDate, d.valid = true
            ∧ Cell.num ((1709164800000000000 : Int) : Rat) = Cell.date d) := by
  refine ⟨by decide, by decide, ?_⟩
  rintro (h | ⟨d, _, h⟩) <;> exact Cell.noConfusion h

/-- A one-column frame with a date-named column holding one malformed and one
well-formed value, for the C1 witness. -/
def dfDates : DataFrame :=
  [Col.mk ("Sample_Date".toList) [Cell.str ("2024-02-30".toList), Cell.str ("2024-02-29".toList)]]

def colDates : Col :=
  Col.mk ("sample_date".toList) [Cell.null, Cell.str ("2024-02-29".toList)]

theorem date_coercion_safety_witness :
    (colDates ∈ loadView dfDates ∧ isDateColName colDates.name = true
      ∧ Cell.null ∈ colDates.cells)
    ∧ (Cell.null = Cell.null
      ∨ ∃ d : CalDate, d.valid = true ∧ Cell.null = Cell.str (isoOfDate d)) :=
  ⟨⟨by decide, by decide, by decide⟩,
    date_coercion_safety.1 dfDates colDates (by decide) (by decide) Cell.null (by decide)⟩

/-- C8 counterexample: in a count/measure-indicating column whose name also
contains DATE, the numerically unparseable value 12x34 is first date-coerced
to NaT and then stored by the numeric pass as the iNaT sentinel integer —
not as null, refuting the claim as stated at this input. -/
theorem numeric_overlap_cex :
    (cleanCol (Col.mk ("MEASUREMENT_DATE".toList) [Cell.str ("12x34".toList)])).cells
      = [Cell.num ((iNaT : Int) : Rat)]
    ∧ isNumName ("MEASUREMENT_DATE".toList) = true
    ∧ parseNum ("12x34".toList) = none
    ∧ Cell.num ((iNaT : Int) : Rat) ≠ Cell.null := by
  refine ⟨by decide, by decide, by decide, fun h => Cell.noConfusion h⟩

/-- C8 (amended): for a column whose name indicates a count or measurement,
the cleaning never raises and keeps every row (one output cell per input
cell).  When the name does not also contain DATE, the numeric pass parses
every value, with null on failure and the parsed number on success — in
particular a malformed population count is stored as null with its row kept.
When the name also contains DATE, the numeric pass receives the date-coerced
datetime64 column and converts it to int64: values that parsed as dates
become their epoch-nanosecond integers and every other original value the
iNaT sentinel, not null. -/
theorem numeric_coercion_null_on_failure (name : List Char) (cells : List Cell)
    (hn : isNumName name = true) :
    (isDateName name = false →
      (cleanCol (Col.mk name cells)).cells = cells.map toNumCell
      ∧ (cleanCol (Col.mk name cells)).cells.length = cells.length
      ∧ (∀ s, parseNum s = none → toNumCell (Cell.str s) = Cell.null)
      ∧ (∀ s q, parseNum s = some q → toNumCell (Cell.str s) = Cell.num q))
    ∧ (isDateName name = true →
      (cleanCol (Col.mk name cells)).cells
        = cells.map (fun v => toNumCellDt (toDateCell v))
      ∧ (cleanCol (Col.mk name cells)).cells.length = cells.length
      ∧ (∀ v ∈ cells, v.raw = true →
          (∃ d : CalDate, d.valid = true
            ∧ toNumCellDt (toDateCell v) = Cell.num ((epochNs d : Int) : Rat))
          ∨ toNumCellDt (toDateCell v) = Cell.num ((iNaT : Int) : Rat))) := by
  constructor
  · intro hd
    refine ⟨by simp [cleanCol, hn, hd], by simp [cleanCol, hn, hd], ?_, ?_⟩
    · intro s hs
      simp [toNumCell, hs]
    · intro s q hs
      simp [toNumCell, hs]
  · intro hd
    refine ⟨overlap_cells_eq hd hn, ?_, ?_⟩
    · rw [overlap_cells_eq hd hn]
      simp
    · intro v _ hv
      exact overlap_cell_shape hv

/-- The water-systems population column of the spec scenario: one malformed
count among well-formed ones. -/
def popCells : List Cell :=
  [Cell.str ("5200".toList), Cell.str ("12x34".toList), Cell.null]

theorem numeric_coercion_witness :
    (isNumName ("POPULATION_SERVED_COUNT".toList) = true
      ∧ isDateName ("POPULATION_SERVED_COUNT".toList) = false
      ∧ parseNum ("12x34".toList) = none)
    ∧ ((cleanCol (Col.mk ("POPULATION_SERVED_COUNT".toList) popCells)).cells
        = popCells.map toNumCell
      ∧ (cleanCol (Col.mk ("POPULATION_SERVED_COUNT".toList) popCells)).cells.length
        = popCells.length
      ∧ (∀ s, parseNum s = none → toNumCell (Cell.str s) = Cell.null)
      ∧ (∀ s q, parseNum s = some q → toNumCell (Cell.str s) = Cell.num q)) :=
  ⟨⟨by decide, by decide, by decide⟩,
    (numeric_coercion_null_on_failure ("POPULATION_SERVED_COUNT".toList) popCells
      (by decide)).1 (by decide)⟩

/-- C10: `clean_dataframe` leaves every column whose upper-cased name contains
none of the substrings DATE, COUNT, MEASURE exactly unchanged, at its
position. -/
theorem clean_dataframe_untouched (df : DataFrame) (i : Nat) (col : Col)
    (hget : df[i]? = some col)
    (hdate : containsSeq ("DATE".toList) (upperStr col.name) = false)
    (hcount : containsSeq ("COUNT".toList) (upperStr col.name) = false)
    (hmeas : containsSeq ("MEASURE".toList) (upperStr col.name) = false) :
    (clean_dataframe df)[i]? = some col := by
  have h1 : isDateName col.name = false := by
    unfold isDateName
    simpa using hdate
  have h2 : isNumName col.name = false := by
    unfold isNumName
    rw [Bool.or_eq_false_iff]
    exact ⟨by simpa using hcount, by simpa using hmeas⟩
  have hfix : cleanCol col = col := by simp [cleanCol, h1, h2]
  unfold clean_dataframe
  rw [List.getElem?_map, hget]
  simp [hfix]

def colPlain : Col := Col.mk ("PWS_TYPE_CODE".toList) [Cell.str ("CWS".toList), Cell.null]

theorem clean_dataframe_untouched_witness :
    ([colPlain][0]? = some colPlain
      ∧ containsSeq ("DATE".toList) (upperStr colPlain.name) = false
      ∧ containsSeq ("COUNT".toList) (upperStr colPlain.name) = false
      ∧ containsSeq ("MEASURE".toList) (upperStr colPlain.name) = false)
    ∧ (clean_dataframe [colPlain])[0]? = some colPlain :=
  ⟨⟨by decide, by decide, by decide, by decide⟩,
    clean_dataframe_untouched [colPlain] 0 colPlain (by decide) (by decide) (by decide)
      (by decide)⟩

/-! ## `data_ingest.py`: the per-file ingest loop

`ingest_data` walks `file_mappings`; a missing file logs a warning, an
exception inside the try block logs an error, a successful read is cleaned
and written with `to_sql(..., if_exists="replace")`.  The read outcome of a
present file is modelled as an `Except` value (the exception message the
`except` clause would catch); the database is a name-to-frame map in which
the newest write for a name is the visible one, so `dbSet` models the full
replacement `to_sql` performs. -/

abbrev FileName := List Char

abbrev TableName := List Char

abbrev ReadResult := Except (List Char) DataFrame

/-- The source directory: the files that exist, with their read outcomes. -/
abbrev FileSys := List (FileName × ReadResult)

def lookupFile : FileSys → FileName → Option ReadResult
  | [], _ => none
  | (n, r) :: fs, f => if n = f then some r else lookupFile fs f

inductive LogEntry where
  | info : TableName → LogEntry
  | warning : FileName → LogEntry
  | err : FileName → List Char → LogEntry
deriving DecidableEq

abbrev DB := List (TableName × DataFrame)

/-- `to_sql(name, conn, if_exists="replace")`: the new frame shadows any
previous contents of the table. -/
def dbSet (db : DB) (t : TableName) (df : DataFrame) : DB := (t, df) :: db

def dbGet : DB → TableName → Option DataFrame
  | [], _ => none
  | (n, d) :: db, t => if n = t then some d else dbGet db t

/-- `self.file_mappings` of `SDWISDataIngestion`. -/
def file_mappings : List (FileName × TableName) :=
  [("SDWA_EVENTS_MILESTONES.csv".toList, "events_milestones".toList),
   ("SDWA_FACILITIES.csv".toList, "facilities".toList),
   ("SDWA_GEOGRAPHIC_AREAS.csv".toList, "geographic_areas".toList),
   ("SDWA_LCR_Samples.csv".toList, "lcr_samples".toList),
   ("SDWA_PN_VIOLATION_ASSOC.csv".toList, "pn_violation_assoc".toList),
   ("SDWA_PUB_WATER_SYSTEMS.csv".toList, "pub_water_systems".toList),
   ("SDWA_REF_ANSI_AREAS.csv".toList, "ref_ansi_areas".toList),
   ("SDWA_REF_CODE_VALUES.csv".toList, "ref_code_values".toList),
   ("SDWA_SERVICE_AREAS.csv".toList, "service_areas".toList),
   ("SDWA_SITE_VISITS.csv".toList, "site_visits".toList),
   ("SDWA_VIOLATIONS_ENFORCEMENT.csv".toList, "violations_enforcement".toList)]

/-- The try block of the loop: read, then clean; any error escapes. -/
def processFile : ReadResult → Except (List Char) DataFrame
  | .error e => .error e
  | .ok df => .ok (clean_dataframe df)

/-- One iteration of the loop (`data_ingest.py` lines 49 to 65). -/
def ingestStep (fs : FileSys) (st : DB × List LogEntry) (m : FileName × TableName) :
    DB × List LogEntry :=
  match lookupFile fs m.1 with
  | none => (st.1, st.2 ++ [LogEntry.warning m.1])
  | some r =>
    match processFile r with
    | .error e => (st.1, st.2 ++ [LogEntry.err m.1 e])
    | .ok df => (dbSet st.1 m.2 df, st.2 ++ [LogEntry.info m.2])

/-- `SDWISDataIngestion.ingest_data`, starting from the database contents the
constructor connected to. -/
def ingest_data (fs : FileSys) (db0 : DB) : DB × List LogEntry :=
  file_mappings.foldl (ingestStep fs) (db0, [])

/-- What one mapping entry alone determines for its table. -/
def expectedLoad (fs : FileSys) (db0 : DB) (csv : FileName) (t : TableName) :
    Option DataFrame :=
  match lookupFile fs csv with
  | none => dbGet db0 t
  | some r =>
    match processFile r with
    | .error _ => dbGet db0 t
    | .ok df => some df

theorem expectedLoad_congr {fs : FileSys} {db1 db2 : DB} {csv : FileName}
    {t : TableName} (h : dbGet db1 t = dbGet db2 t) :
    expectedLoad fs db1 csv t = expectedLoad fs db2 csv t := by
  unfold expectedLoad
  cases h1 : lookupFile fs csv with
  | none => exact h
  | some r =>
    cases h2 : processFile r with
    | error e => simp only [h2]; exact h
    | ok df => simp only [h2]

theorem dbGet_ingestStep_ne (fs : FileSys) (st : DB × List LogEntry)
    (m : FileName × TableName) {t : TableName} (h : m.2 ≠ t) :
    dbGet (ingestStep fs st m).1 t = dbGet st.1 t := by
  unfold ingestStep
  cases h1 : lookupFile fs m.1 with
  | none => rfl
  | some r =>
    cases h2 : processFile r with
    | error e => simp only [h2]
    | ok df => simp only [h2, dbSet, dbGet, if_neg h]

theorem dbGet_foldl_not_mem (fs : FileSys) :
    ∀ (ms : List (FileName × TableName)) (st : DB × List LogEntry) (t : TableName),
      t ∉ ms.map Prod.snd →
      dbGet (ms.foldl (ingestStep fs) st).1 t = dbGet st.1 t := by
  intro ms
  induction ms with
  | nil => intro st t _; rfl
  | cons m ms ih =>
    intro st t hmem
    simp only [List.map_cons, List.mem_cons] at hmem
    push_neg at hmem
    rw [List.foldl_cons, ih _ t hmem.2, dbGet_ingestStep_ne fs st m (Ne.symm hmem.1)]

theorem log_mem_ingestStep (fs : FileSys) (st : DB × List LogEntry)
    (m : FileName × TableName) {x : LogEntry} (hx : x ∈ st.2) :
    x ∈ (ingestStep fs st m).2 := by
  unfold ingestStep
  cases h1 : lookupFile fs m.1 with
  | none => exact List.mem_append.mpr (Or.inl hx)
  | some r =>
    cases h2 : processFile r with
    | error e => simp only [h2]; exact List.mem_append.mpr (Or.inl hx)
    | ok df => simp only [h2]; exact List.mem_append.mpr (Or.inl hx)

theorem log_mem_foldl (fs : FileSys) :
    ∀ (ms : List (FileName × TableName)) (st : DB × List LogEntry) (x : LogEntry),
      x ∈ st.2 → x ∈ (ms.foldl (ingestStep fs) st).2 := by
  intro ms
  induction ms with
  | nil => intro st x hx; exact hx
  | cons m ms ih =>
    intro st x hx
    rw [List.foldl_cons]
    exact ih _ x (log_mem_ingestStep fs st m hx)

theorem dbGet_foldl (fs : FileSys) :
    ∀ (ms : List (FileName × TableName)) (st : DB × List LogEntry)
      (csv : FileName) (t : TableName),
      (csv, t) ∈ ms → (ms.map Prod.snd).Nodup →
      dbGet (ms.foldl (ingestStep fs) st).1 t = expectedLoad fs st.1 csv t := by
  intro ms
  induction ms with
  | nil => intro st csv t hm _; cases hm
  | cons m ms ih =>
    intro st csv t hm hnd
    simp only [List.map_cons, List.nodup_cons] at hnd
    rw [List.foldl_cons]
    rcases List.mem_cons.mp hm with heq | hmem
    · subst heq
      rw [dbGet_foldl_not_mem fs ms _ t hnd.1]
      unfold ingestStep expectedLoad
      cases h1 : lookupFile fs csv with
      | none => rfl
      | some r =>
        cases h2 : processFile r with
        | error e => simp only [h2]
        | ok df => simp only [h2, dbSet, dbGet, if_pos]
    · have hne : m.2 ≠ t := by
        intro heq
        exact hnd.1 (heq ▸ List.mem_map.mpr ⟨(csv, t), hmem, rfl⟩)
      rw [ih _ csv t hmem hnd.2]
      exact expectedLoad_congr (dbGet_ingestStep_ne fs st m hne)

theorem err_logged (fs : FileSys) :
    ∀ (ms : List (FileName × TableName)) (st : DB × List LogEntry)
      (csv : FileName) (t : TableName) (r : ReadResult) (e : List Char),
      (csv, t) ∈ ms → lookupFile fs csv = some r → processFile r = .error e →
      LogEntry.err csv e ∈ (ms.foldl (ingestStep fs) st).2 := by
  intro ms
  induction ms with
  | nil => intro st csv t r e hm _ _; cases hm
  | cons m ms ih =>
    intro st csv t r e hm hr he
    rw [List.foldl_cons]
    rcases List.mem_cons.mp hm with heq | hmem
    · subst heq
      apply log_mem_foldl
      unfold ingestStep
      simp only [hr, he]
      exact List.mem_append.mpr (Or.inr (by simp))
    · exact ih _ csv t r e hmem hr he

theorem warn_logged (fs : FileSys) :
    ∀ (ms : List (FileName × TableName)) (st : DB × List LogEntry)
      (csv : FileName) (t : TableName),
      (csv, t) ∈ ms → lookupFile fs csv = none →
      LogEntry.warning csv ∈ (ms.foldl (ingestStep fs) st).2 := by
  intro ms
  induction ms with
  | nil => intro st csv t hm _; cases hm
  | cons m ms ih =>
    intro st csv t hm habs
    rw [List.foldl_cons]
    rcases List.mem_cons.mp hm with heq | hmem
    · subst heq
      apply log_mem_foldl
      unfold ingestStep
      simp only [habs]
      exact List.mem_append.mpr (Or.inr (by simp))
    · exact ih _ csv t hmem habs

theorem file_mappings_tables_nodup : (file_mappings.map Prod.snd).Nodup := by decide

/-- C2: an error raised while loading one source file does not abort the run:
the error is logged, and the table of every mapping entry (in particular every
other file) still holds exactly the outcome its own file determines, as if no
error had occurred anywhere else.  The fold is total, so the run always
completes. -/
theorem error_containment (fs : FileSys) (db0 : DB) (csv : FileName) (t : TableName)
    (r : ReadResult) (e : List Char)
    (hm : (csv, t) ∈ file_mappings)
    (hr : lookupFile fs csv = some r) (he : processFile r = Except.error e) :
    LogEntry.err csv e ∈ (ingest_data fs db0).2
    ∧ ∀ csv2 t2, (csv2, t2) ∈ file_mappings →
        dbGet (ingest_data fs db0).1 t2 = expectedLoad fs db0 csv2 t2 := by
  constructor
  · exact err_logged fs file_mappings (db0, []) csv t r e hm hr he
  · intro csv2 t2 hm2
    exact dbGet_foldl fs file_mappings (db0, []) csv2 t2 hm2 file_mappings_tables_nodup

def fsErr : FileSys := [("SDWA_FACILITIES.csv".toList, Except.error ("bad header".toList))]

theorem error_containment_witness :
    (("SDWA_FACILITIES.csv".toList, "facilities".toList) ∈ file_mappings
      ∧ lookupFile fsErr ("SDWA_FACILITIES.csv".toList)
          = some (Except.error ("bad header".toList))
      ∧ processFile (Except.error ("bad header".toList))
          = Except.error ("bad header".toList))
    ∧ LogEntry.err ("SDWA_FACILITIES.csv".toList) ("bad header".toList)
        ∈ (ingest_data fsErr []).2 :=
  ⟨⟨by decide, rfl, rfl⟩,
    (error_containment fsErr [] ("SDWA_FACILITIES.csv".toList) ("facilities".toList)
      (Except.error ("bad header".toList)) ("bad header".toList)
      (by decide) rfl rfl).1⟩

/-- C7: when an expected source file is missing, the loader logs a warning for
it, creates no table for it (starting from a database without that table, the
table is still absent afterwards), the run completes, and every mapping entry
still holds exactly what its own file determines. -/
theorem missing_file_tolerance (fs : FileSys) (db0 : DB) (csv : FileName)
    (t : TableName) (hm : (csv, t) ∈ file_mappings)
    (habs : lookupFile fs csv = none) :
    LogEntry.warning csv ∈ (ingest_data fs db0).2
    ∧ dbGet (ingest_data fs db0).1 t = dbGet db0 t
    ∧ (dbGet db0 t = none → dbGet (ingest_data fs db0).1 t = none)
    ∧ ∀ csv2 t2, (csv2, t2) ∈ file_mappings →
        dbGet (ingest_data fs db0).1 t2 = expectedLoad fs db0 csv2 t2 := by
  have hmain := dbGet_foldl fs file_mappings (db0, []) csv t hm file_mappings_tables_nodup
  have hexp : expectedLoad fs db0 csv t = dbGet db0 t := by
    unfold expectedLoad
    simp only [habs]
  have h2 : dbGet (ingest_data fs db0).1 t = dbGet db0 t := by
    unfold ingest_data
    rw [hmain]
    exact hexp
  refine ⟨warn_logged fs file_mappings (db0, []) csv t hm habs, h2, ?_, ?_⟩
  · intro h0
    rw [h2, h0]
  · intro csv2 t2 hm2
    exact dbGet_foldl fs file_mappings (db0, []) csv2 t2 hm2 file_mappings_tables_nodup

theorem missing_file_tolerance_witness :
    (("SDWA_SITE_VISITS.csv".toList, "site_visits".toList) ∈ file_mappings
      ∧ lookupFile [] ("SDWA_SITE_VISITS.csv".toList) = none)
    ∧ LogEntry.warning ("SDWA_SITE_VISITS.csv".toList) ∈ (ingest_data [] []).2
    ∧ dbGet (ingest_data ([] : FileSys) []).1 ("site_visits".toList) = none :=
  ⟨⟨by decide, rfl⟩,
    (missing_file_tolerance [] [] ("SDWA_SITE_VISITS.csv".toList) ("site_visits".toList)
      (by decide) rfl).1,
    (missing_file_tolerance [] [] ("SDWA_SITE_VISITS.csv".toList) ("site_visits".toList)
      (by decide) rfl).2.2.1 rfl⟩

/-! ## `ingest_data.py`: `insert_all(pk=..., replace=True)`

`sqlite_utils` with `replace=True` issues `INSERT OR REPLACE`: each record is
inserted after deleting any existing row whose declared primary key takes the
same value.  The destination table is not dropped first, so rows already in
the table whose keys do not occur in the incoming records remain. -/

abbrev Row := List (List Char × Cell)

def lookupCol : Row → List Char → Option Cell
  | [], _ => none
  | (n, v) :: r, k => if n = k then some v else lookupCol r k

/-- The value tuple of the declared primary-key columns of a row. -/
def rowKey (pk : List (List Char)) (r : Row) : List (Option Cell) :=
  pk.map (lookupCol r)

/-- `INSERT OR REPLACE` of one record. -/
def upsertRow (pk : List (List Char)) (tbl : List Row) (r : Row) : List Row :=
  (tbl.filter (fun r2 => decide (rowKey pk r2 ≠ rowKey pk r))) ++ [r]

/-- `db[view].insert_all(records, pk=pk, replace=True)` on an existing
table. -/
def insert_all (pk : List (List Char)) (tbl : List Row) (recs : List Row) :
    List Row :=
  recs.foldl (upsertRow pk) tbl

def rowsWithKey (pk : List (List Char)) (tbl : List Row)
    (k : List (Option Cell)) : List Row :=
  tbl.filter (fun r => decide (rowKey pk r = k))

/-- The last record with a given key value, if any. -/
def lastWithKey (pk : List (List Char)) (k : List (Option Cell)) :
    List Row → Option Row
  | [] => none
  | r :: rs =>
    match lastWithKey pk k rs with
    | some r0 => some r0
    | none => if rowKey pk r = k then some r else none

/-- `KEY_MAP` of `ingest_data.py` (primary keys per view). -/
def KEY_MAP : List (List Char × List (List Char)) :=
  [("events_milestones".toList,
      ["submissionyearquarter".toList, "pwsid".toList, "event_schedule_id".toList]),
   ("facilities".toList,
      ["submissionyearquarter".toList, "pwsid".toList, "facility_id".toList]),
   ("geographic_areas".toList,
      ["submissionyearquarter".toList, "pwsid".toList, "geo_id".toList]),
   ("lcr_samples".toList,
      ["submissionyearquarter".toList, "pwsid".toList, "sar_id".toList]),
   ("pn_violation_assoc".toList, ["pn_violation_id".toList]),
   ("pub_water_systems".toList, ["submissionyearquarter".toList, "pwsid".toList]),
   ("ref_ansi_areas".toList, ["ansi_state_code".toList, "ansi_entity_code".toList]),
   ("ref_code_values".toList, ["value_type".toList, "value_code".toList]),
   ("service_areas".toList,
      ["submissionyearquarter".toList, "pwsid".toList, "service_area_type_code".toList]),
   ("site_visits".toList,
      ["submissionyearquarter".toList, "pwsid".toList, "visit_id".toList]),
   ("violations_enforcement".toList, ["violation_id".toList])]

theorem keysNodup_upsert {pk : List (List Char)} {tbl : List Row} (r : Row)
    (h : (tbl.map (rowKey pk)).Nodup) :
    ((upsertRow pk tbl r).map (rowKey pk)).Nodup := by
  unfold upsertRow
  rw [List.map_append]
  apply List.Nodup.append
  · exact List.Nodup.sublist ((List.filter_sublist tbl).map (rowKey pk)) h
  · simp
  · intro k hk hk2
    obtain ⟨row, hrow, hkeq⟩ := List.mem_map.mp hk
    have hne := (List.mem_filter.mp hrow).2
    simp only [decide_eq_true_eq] at hne
    simp only [List.map_cons, List.map_nil, List.mem_singleton] at hk2
    exact hne (hkeq ▸ hk2)

theorem rowsWithKey_upsert (pk : List (List Char)) (tbl : List Row) (r : Row)
    (k : List (Option Cell)) :
    rowsWithKey pk (upsertRow pk tbl r) k
      = if k = rowKey pk r then [r] else rowsWithKey pk tbl k := by
  unfold rowsWithKey upsertRow
  rw [List.filter_append]
  by_cases hk : k = rowKey pk r
  · subst hk
    rw [if_pos rfl]
    have h1 : (List.filter (fun r2 => decide (rowKey pk r2 ≠ rowKey pk r)) tbl).filter
        (fun r2 => decide (rowKey pk r2 = rowKey pk r)) = [] := by
      rw [List.filter_eq_nil_iff]
      intro a ha
      have := (List.mem_filter.mp ha).2
      simp only [decide_eq_true_eq] at this ⊢
      exact this
    rw [show (List.filter (fun r2 => decide (rowKey pk r2 = rowKey pk r))
        (List.filter (fun r2 => decide (rowKey pk r2 ≠ rowKey pk r)) tbl)) = [] from h1]
    rw [List.nil_append, List.filter_cons_of_pos (by simp), List.filter_nil]
  · rw [if_neg hk]
    have h2 : List.filter (fun r2 => decide (rowKey pk r2 = k)) [r] = [] := by
      rw [List.filter_eq_nil_iff]
      intro a ha
      simp only [List.mem_singleton] at ha
      subst ha
      simp only [decide_eq_true_eq]
      exact fun hh => hk hh.symm
    have h3 : List.filter (fun r2 => decide (rowKey pk r2 = k))
        (List.filter (fun r2 => decide (rowKey pk r2 ≠ rowKey pk r)) tbl)
        = List.filter (fun r2 => decide (rowKey pk r2 = k)) tbl := by
      rw [List.filter_filter]
      apply List.filter_congr
      intro a _
      by_cases hak : rowKey pk a = k
      · have : rowKey pk a ≠ rowKey pk r := fun hh => hk (hak ▸ hh.symm ▸ rfl)
        simp [hak, this, hk]
      · simp [hak]
    rw [h2, h3, List.append_nil]

theorem insert_all_lastWins (pk : List (List Char)) :
    ∀ (recs tbl : List Row) (k : List (Option Cell)),
      rowsWithKey pk (insert_all pk tbl recs) k
        = (match lastWithKey pk k recs with
           | some r => [r]
           | none => rowsWithKey pk tbl k) := by
  intro recs
  induction recs with
  | nil => intro tbl k; rfl
  | cons r rs ih =>
    intro tbl k
    rw [show insert_all pk tbl (r :: rs) = insert_all pk (upsertRow pk tbl r) rs from rfl]
    rw [ih (upsertRow pk tbl r) k]
    cases hl : lastWithKey pk k rs with
    | some r0 => simp [lastWithKey, hl]
    | none =>
      simp only [lastWithKey, hl]
      rw [rowsWithKey_upsert]
      by_cases hk : rowKey pk r = k
      · rw [if_pos hk.symm, if_pos hk]
      · rw [if_neg (fun hh => hk hh.symm), if_neg hk]

theorem insert_all_keysNodup (pk : List (List Char)) :
    ∀ (recs tbl : List Row), (tbl.map (rowKey pk)).Nodup →
      ((insert_all pk tbl recs).map (rowKey pk)).Nodup := by
  intro recs
  induction recs with
  | nil => intro tbl h; exact h
  | cons r rs ih =>
    intro tbl h
    exact ih (upsertRow pk tbl r) (keysNodup_upsert r h)

/-- C6: a duplicate primary key within one source file is not an error:
`insert_all(pk, replace=True)` is a total fold (the load succeeds), the
resulting table has unique key values when the initial table had (exactly one
row per declared key), and for every key occurring in the file the surviving
row is the last record carrying that key: the later row silently overwrites
the earlier one. -/
theorem duplicate_pk_last_write_wins (pk : List (List Char)) (tbl recs : List Row)
    (h : (tbl.map (rowKey pk)).Nodup) :
    ((insert_all pk tbl recs).map (rowKey pk)).Nodup
    ∧ ∀ k r, lastWithKey pk k recs = some r →
        rowsWithKey pk (insert_all pk tbl recs) k = [r] := by
  refine ⟨insert_all_keysNodup pk recs tbl h, ?_⟩
  intro k r hl
  rw [insert_all_lastWins pk recs tbl k, hl]

def pkViol : List (List Char) := ["violation_id".toList]

def rowV1 : Row :=
  [("violation_id".toList, Cell.str ("1".toList)),
   ("status".toList, Cell.str ("old".toList))]

def rowV2 : Row :=
  [("violation_id".toList, Cell.str ("1".toList)),
   ("status".toList, Cell.str ("new".toList))]

theorem duplicate_pk_last_write_wins_witness :
    (([] : List Row).map (rowKey pkViol)).Nodup
    ∧ rowsWithKey pkViol (insert_all pkViol [] [rowV1, rowV2])
        [some (Cell.str ("1".toList))] = [rowV2] :=
  ⟨by decide,
    (duplicate_pk_last_write_wins pkViol [] [rowV1, rowV2] (by decide)).2
      [some (Cell.str ("1".toList))] rowV2 rfl⟩

def rowOld : Row := [("violation_id".toList, Cell.str ("old1".toList))]

def rowNew : Row := [("violation_id".toList, Cell.str ("new1".toList))]

/-- C3 counterexample: under `insert_all(pk, replace=True)` (the
`ingest_data.py` loader), a row present in the destination table before the
load, whose key does not occur in the source file, survives the load: the
table afterwards is not exactly the file-derived rows, so the load is not a
whole-table truncate-and-reload. -/
theorem insert_all_not_full_replacement :
    rowOld ∈ insert_all pkViol [rowOld] [rowNew]
    ∧ rowOld ∉ [rowNew] := by decide

/-- C3 (amended): the two loaders differ.  `data_ingest.py`
(`to_sql(if_exists="replace")`) does fully replace the destination table:
after a successful load the table is exactly the cleaned file contents,
whatever the database held before.  `ingest_data.py`
(`insert_all(replace=True)`) is a per-key insert-or-replace: for every key the
surviving row is the last file record with that key if one exists, otherwise
whatever the prior table held for that key — prior rows with unmatched keys
survive, and the table equals exactly the file-derived rows only when it
starts empty. -/
theorem table_replacement_semantics :
    (∀ (fs : FileSys) (db0 : DB) (csv : FileName) (t : TableName)
        (r : ReadResult) (df : DataFrame),
      (csv, t) ∈ file_mappings → lookupFile fs csv = some r →
      processFile r = Except.ok df →
      dbGet (ingest_data fs db0).1 t = some df)
    ∧ (∀ (pk : List (List Char)) (tbl recs : List Row) (k : List (Option Cell)),
      rowsWithKey pk (insert_all pk tbl recs) k
        = (match lastWithKey pk k recs with
           | some r => [r]
           | none => rowsWithKey pk tbl k)) := by
  constructor
  · intro fs db0 csv t r df hm hr hok
    have hmain := dbGet_foldl fs file_mappings (db0, []) csv t hm file_mappings_tables_nodup
    unfold ingest_data
    rw [hmain]
    unfold expectedLoad
    simp only [hr, hok]
  · intro pk tbl recs k
    exact insert_all_lastWins pk recs tbl k

def dfRef : DataFrame := [Col.mk ("VALUE_TYPE".toList) [Cell.str ("X".toList)]]

def fsOk : FileSys := [("SDWA_REF_CODE_VALUES.csv".toList, Except.ok dfRef)]

def dbStale : DB := [("ref_code_values".toList, [Col.mk ("stale".toList) [Cell.null]])]

theorem table_replacement_semantics_witness :
    (("SDWA_REF_CODE_VALUES.csv".toList, "ref_code_values".toList) ∈ file_mappings
      ∧ lookupFile fsOk ("SDWA_REF_CODE_VALUES.csv".toList) = some (Except.ok dfRef)
      ∧ processFile (Except.ok dfRef) = Except.ok (clean_dataframe dfRef))
    ∧ dbGet (ingest_data fsOk dbStale).1 ("ref_code_values".toList)
        = some (clean_dataframe dfRef) :=
  ⟨⟨by decide, rfl, rfl⟩,
    table_replacement_semantics.1 fsOk dbStale ("SDWA_REF_CODE_VALUES.csv".toList)
      "ref_code_values".toList (Except.ok dfRef) (clean_dataframe dfRef)
      (by decide) rfl rfl⟩

/-! ## `ingest_data.py`: the compatibility views

The closing `executescript` drops and recreates the two legacy-named views.
A SQLite database resolves a queried name through views first (a name is
unique across tables and views); querying a view yields the rows of its
underlying table. -/

structure SqlDb where
  tables : List (TableName × List Row)
  views : List (TableName × TableName)

def lookupAssoc {α : Type} : List (TableName × α) → TableName → Option α
  | [], _ => none
  | (n, v) :: l, t => if n = t then some v else lookupAssoc l t

/-- `DROP VIEW IF EXISTS v`. -/
def dropView (db : SqlDb) (v : TableName) : SqlDb :=
  SqlDb.mk db.tables (db.views.filter (fun p => decide (p.1 ≠ v)))

/-- `CREATE VIEW v AS SELECT * FROM tgt`. -/
def createView (db : SqlDb) (v tgt : TableName) : SqlDb :=
  SqlDb.mk db.tables ((v, tgt) :: db.views)

/-- The executescript block of `ingest_data.py` (lines 85 to 90), statement by
statement. -/
def compatViews (db : SqlDb) : SqlDb :=
  createView
    (createView
      (dropView (dropView db ("water_systems".toList)) ("violations".toList))
      "water_systems".toList ("pub_water_systems".toList))
    "violations".toList ("violations_enforcement".toList)

/-- Query a name: a view resolves to the rows of its underlying table;
otherwise the name denotes a table. -/
def queryRows (db : SqlDb) (n : TableName) : Option (List Row) :=
  match lookupAssoc db.views n with
  | some tgt => lookupAssoc db.tables tgt
  | none => lookupAssoc db.tables n

theorem lookupAssoc_filter_none {α : Type} {l : List (TableName × α)} {t : TableName}
    (p : TableName × α → Bool) (h : lookupAssoc l t = none) :
    lookupAssoc (l.filter p) t = none := by
  induction l with
  | nil => rfl
  | cons x l ih =>
    obtain ⟨n, v⟩ := x
    rw [show lookupAssoc ((n, v) :: l) t = if n = t then some v else lookupAssoc l t
      from rfl] at h
    by_cases hn : n = t
    · rw [if_pos hn] at h
      cases h
    · rw [if_neg hn] at h
      rw [List.filter_cons]
      cases hp : p (n, v) with
      | false => simpa using ih h
      | true =>
        simp only [if_true]
        rw [show lookupAssoc ((n, v) :: l.filter p) t
          = if n = t then some v else lookupAssoc (l.filter p) t from rfl, if_neg hn]
        exact ih h

/-- C9: after a load recreates the two compatibility views, querying the
legacy names `water_systems` and `violations` returns exactly the same rows as
querying the canonical tables `pub_water_systems` and
`violations_enforcement` directly; the hypotheses state that the canonical
names are tables, not views, exactly as the load leaves them. -/
theorem compat_views_stable (db : SqlDb)
    (h1 : lookupAssoc db.views ("pub_water_systems".toList) = none)
    (h2 : lookupAssoc db.views ("violations_enforcement".toList) = none) :
    queryRows (compatViews db) ("water_systems".toList)
      = queryRows (compatViews db) ("pub_water_systems".toList)
    ∧ queryRows (compatViews db) ("violations".toList)
      = queryRows (compatViews db) ("violations_enforcement".toList) := by
  have hv : (compatViews db).views
      = ("violations".toList, "violations_enforcement".toList)
        :: ("water_systems".toList, "pub_water_systems".toList)
        :: ((db.views.filter
              (fun p => decide (p.1 ≠ "water_systems".toList))).filter
              (fun p => decide (p.1 ≠ "violations".toList))) := rfl
  have ht : (compatViews db).tables = db.tables := rfl
  have look_ws : lookupAssoc (compatViews db).views ("water_systems".toList)
      = some ("pub_water_systems".toList) := by
    rw [hv]
    simp only [lookupAssoc]
    rw [if_neg (by decide), if_pos trivial]
  have look_viol : lookupAssoc (compatViews db).views ("violations".toList)
      = some ("violations_enforcement".toList) := by
    rw [hv]
    simp only [lookupAssoc]
    rw [if_pos trivial]
  have look_pws : lookupAssoc (compatViews db).views ("pub_water_systems".toList)
      = none := by
    rw [hv]
    simp only [lookupAssoc]
    rw [if_neg (by decide), if_neg (by decide)]
    exact lookupAssoc_filter_none _ (lookupAssoc_filter_none _ h1)
  have look_venf : lookupAssoc (compatViews db).views ("violations_enforcement".toList)
      = none := by
    rw [hv]
    simp only [lookupAssoc]
    rw [if_neg (by decide), if_neg (by decide)]
    exact lookupAssoc_filter_none _ (lookupAssoc_filter_none _ h2)
  constructor
  · unfold queryRows
    rw [look_ws, look_pws, ht]
  · unfold queryRows
    rw [look_viol, look_venf, ht]

def dbLoaded : SqlDb :=
  SqlDb.mk
    [("pub_water_systems".toList, [rowNew]), ("violations_enforcement".toList, [])]
    []

theorem compat_views_stable_witness :
    (lookupAssoc dbLoaded.views ("pub_water_systems".toList) = none
      ∧ lookupAssoc dbLoaded.views ("violations_enforcement".toList) = none)
    ∧ queryRows (compatViews dbLoaded) ("water_systems".toList)
        = queryRows (compatViews dbLoaded) ("pub_water_systems".toList)
    ∧ queryRows (compatViews dbLoaded) ("violations".toList)
        = queryRows (compatViews dbLoaded) ("violations_enforcement".toList) :=
  ⟨⟨rfl, rfl⟩,
    (compat_views_stable dbLoaded rfl rfl).1,
    (compat_views_stable dbLoaded rfl rfl).2⟩
